import Mathlib

/-!
Verification of the MEF-Analyzer comparison pipeline (`src/server.ts`).

The pipeline is scrape → parse → normalize → diff → rank.  JavaScript
numbers are modelled as exact rationals (`ℚ`); JavaScript objects used as
label→amount maps are modelled as association lists whose entry order is
the object's key insertion order; `Promise.all`'s fail-fast join is
modelled with an explicit scheduling flag that selects which rejection
settles first when both pipelines reject.
-/

namespace MEF

/-! ### JavaScript primitives used by the pipeline -/

/-- Whitespace characters skipped by `parseFloat` and trimmed by
`String.prototype.trim` (the common ASCII whitespace plus NBSP; the full
Unicode whitespace set of JavaScript is not reproduced). -/
def isJsWs (c : Char) : Bool :=
  c == ' ' || c == '\t' || c == '\n' || c == '\r' || c == '\x0b' || c == '\x0c' || c == '\u00A0'

/-- `String.prototype.trim()`: drop leading and trailing whitespace. -/
def jsTrim (s : String) : String :=
  ⟨((s.data.dropWhile isJsWs).reverse.dropWhile isJsWs).reverse⟩

/-- `.replace(/,/g, "")` from `src/server.ts` line 39: the pattern is the
single character `,`, so replacing every occurrence by the empty string is
exactly removing every comma. -/
def stripCommas (s : String) : String :=
  ⟨s.data.filter (fun c => c != ',')⟩

/-- Value of a digit string, most significant digit first
(also the value `parseInt(s, 10)` gives on a string of plain digits). -/
def digitsToNat (ds : List Char) : Nat :=
  ds.foldl (fun n c => 10 * n + (c.toNat - 48)) 0

/-- `10^e` in `ℚ` for a signed exponent. -/
def pow10 : Int → ℚ
  | .ofNat n => (10 : ℚ) ^ n
  | .negSucc n => 1 / (10 : ℚ) ^ (n + 1)

/-- Exponent denoted by the digits of `cs`, with the given sign, or `0`
when `cs` does not start with a digit (the exponent marker is then not
part of the numeric prefix and contributes nothing). -/
def expDigits (sign : Int) (cs : List Char) : Int :=
  let ds := cs.takeWhile Char.isDigit
  if ds.isEmpty then 0 else sign * (digitsToNat ds : Int)

/-- After the exponent marker: an optional sign, then digits. -/
def parseExpAfterMarker : List Char → Int
  | '+' :: rest2 => expDigits 1 rest2
  | '-' :: rest2 => expDigits (-1) rest2
  | rest => expDigits 1 rest

/-- Exponent part of a JavaScript `StrDecimalLiteral` prefix: `e`/`E`, an
optional sign, then digits; an exponent marker not followed by a digit is
not part of the literal (so the exponent is `0`, leaving the mantissa
value unchanged — `parseFloat("1e")` is `1`). -/
def parseExpPart : List Char → Int
  | [] => 0
  | c :: rest => if c == 'e' || c == 'E' then parseExpAfterMarker rest else 0

/-- Parse the longest decimal-literal prefix of `cs` (whitespace and sign
already consumed): `digits [. digits] [exp]` or `. digits [exp]`; `none`
when no such prefix exists.  `Infinity` literals, which never occur in the
scraped numeric columns, are not modelled. -/
def parseFloatCore (cs : List Char) : Option ℚ :=
  let intPart := cs.takeWhile Char.isDigit
  let rest := cs.dropWhile Char.isDigit
  if intPart.isEmpty then
    match rest with
    | '.' :: rest2 =>
      let frac := rest2.takeWhile Char.isDigit
      if frac.isEmpty then none
      else
        some ((digitsToNat frac : ℚ) / (10 : ℚ) ^ frac.length *
          pow10 (parseExpPart (rest2.dropWhile Char.isDigit)))
    | _ => none
  else
    match rest with
    | '.' :: rest2 =>
      let frac := rest2.takeWhile Char.isDigit
      some (((digitsToNat intPart : ℚ) + (digitsToNat frac : ℚ) / (10 : ℚ) ^ frac.length) *
        pow10 (parseExpPart (rest2.dropWhile Char.isDigit)))
    | _ => some ((digitsToNat intPart : ℚ) * pow10 (parseExpPart rest))

/-- JavaScript `parseFloat`: skip leading whitespace, take an optional
sign, then the longest decimal-literal prefix; `none` models `NaN`. -/
def parseFloatQ (s : String) : Option ℚ :=
  let cs := s.data.dropWhile isJsWs
  match cs with
  | '-' :: rest => (parseFloatCore rest).map (fun q => -q)
  | '+' :: rest => parseFloatCore rest
  | _ => parseFloatCore cs

/-- Drop one leading sign character, as `parseFloat` does. -/
def skipSign : List Char → List Char
  | '-' :: rest => rest
  | '+' :: rest => rest
  | cs => cs

/-- The first character is a digit. -/
def headDigit : List Char → Bool
  | c :: _ => c.isDigit
  | [] => false

/-- After whitespace and sign, a decimal literal can start here: a digit,
or a dot followed by a digit. -/
def numStart : List Char → Bool
  | [] => false
  | c :: rest => c.isDigit || (c == '.' && headDigit rest)

/-- The text has a leading numeric prefix in the sense of `parseFloat`. -/
def hasNumStart (s : String) : Bool :=
  numStart (skipSign (s.data.dropWhile isJsWs))

/-! ### Label normalization (`removeAccents`, `src/server.ts` lines 17–19) -/

/-- Unicode NFD decomposition, restricted to the accented Latin letters
that occur in the portal's Spanish labels (on every other character NFD
is the identity at this restriction).  This models the `normalize("NFD")`
builtin, whose Unicode tables are outside the repository. -/
def nfdChar (c : Char) : List Char :=
  match c with
  | 'á' => ['a', '\u0301']
  | 'é' => ['e', '\u0301']
  | 'í' => ['i', '\u0301']
  | 'ó' => ['o', '\u0301']
  | 'ú' => ['u', '\u0301']
  | 'ñ' => ['n', '\u0303']
  | 'ü' => ['u', '\u0308']
  | 'Á' => ['A', '\u0301']
  | 'É' => ['E', '\u0301']
  | 'Í' => ['I', '\u0301']
  | 'Ó' => ['O', '\u0301']
  | 'Ú' => ['U', '\u0301']
  | 'Ñ' => ['N', '\u0303']
  | 'Ü' => ['U', '\u0308']
  | _ => [c]

/-- The combining diacritical marks range `U+0300`–`U+036F` removed by the
regex `/[\u0300-\u036f]/g`. -/
def isCombiningMark (c : Char) : Bool :=
  0x300 ≤ c.toNat && c.toNat ≤ 0x36f

/-- `removeAccents` from `src/server.ts`: NFD decomposition followed by
removal of every combining diacritical mark. -/
def removeAccents (s : String) : String :=
  ⟨(s.data.flatMap nfdChar).filter (fun c => !isCombiningMark c)⟩

/-! ### Datasets (`Record<string, number>` with insertion order) -/

/-- A `YearlyDataset`: the entries of the JavaScript object in key
insertion order.  Keys are unique by construction of `insertJS`. -/
abbrev Dataset := List (String × ℚ)

/-- `data[k] = v` on a JavaScript object: overwrite the value in place if
the key exists, otherwise append the new entry. -/
def insertJS : Dataset → String → ℚ → Dataset
  | [], k, v => [(k, v)]
  | (k', v') :: rest, k, v =>
    if k' = k then (k', v) :: rest else (k', v') :: insertJS rest k v

/-! ### Table parsing (`scrapeMefData`, `src/server.ts` lines 35–47) -/

/-- A table row is the list of its `td` cell texts; `$(cols[i]).text()`
is the `i`-th entry (rows of fewer than 8 cells are rejected before any
cell is read). -/
def cellText (row : List String) (i : Nat) : String :=
  row.getD i ""

/-- One row of the data table: a candidate only with at least 8 cell
columns; the label is the trimmed text of cell 1, the amount the trimmed,
comma-stripped text of cell 7 parsed by `parseFloat`; `none` when the row
is skipped (too few columns, or `isNaN(monto)`). -/
def parsedOfRow (row : List String) : Option (String × ℚ) :=
  if 8 ≤ row.length then
    let conceptoRaw := jsTrim (cellText row 1)
    let montoRaw := stripCommas (jsTrim (cellText row 7))
    match parseFloatQ montoRaw with
    | some monto => some (removeAccents conceptoRaw, monto)
    | none => none
  else none

/-- One iteration of the `table.find("tr").each` loop: a parsed row is
stored into the `data` object and sets the `hasData` flag; a skipped row
changes nothing. -/
def rowStep (acc : Dataset × Bool) (row : List String) : Dataset × Bool :=
  match parsedOfRow row with
  | some kv => (insertJS acc.1 kv.1 kv.2, true)
  | none => acc

/-- The `table.find("tr").each` loop: fold every row into the `data`
object, tracking the `hasData` flag. -/
def tableFold (rows : List (List String)) : Dataset × Bool :=
  rows.foldl rowStep ([], false)

/-- Message thrown when no `table.Data` element exists. -/
def noTableMsg : String :=
  "No se encontró la tabla de datos en la URL proporcionada. Verifique que el enlace sea de Consulta Amigable."

/-- Message thrown when the table holds no valid numeric data. -/
def noDataMsg : String :=
  "La tabla se encontró pero no contiene datos numéricos válidos en las columnas esperadas."

/-- Process the first `table.Data` element: error when `hasData` stays
false, the accumulated dataset otherwise. -/
def processTable (rows : List (List String)) : Except String Dataset :=
  let st := tableFold rows
  if st.2 then .ok st.1 else .error noDataMsg

/-- The parsing part of `scrapeMefData` on a decoded document, given as
its list of `table.Data` elements in document order (each a list of rows,
each row its cell texts): error when no data table exists, otherwise
process the first one. -/
def scrapeDoc (tables : List (List (List String))) : Except String Dataset :=
  match tables with
  | [] => .error noTableMsg
  | t :: _ => processTable t

/-! ### Error objects and the catch block (`src/server.ts` lines 54–63) -/

/-- A thrown error as the catch block sees it: internally constructed
`Error` objects carry only a message; axios failures may additionally
carry a `response` (the remote status) or a `request` marker. -/
structure JsError where
  message : String
  response : Option Nat := none
  request : Bool := false
deriving DecidableEq

/-- Does `pat` occur as a contiguous run inside `cs`? -/
def listStarts : List Char → List Char → Bool
  | [], _ => true
  | _ :: _, [] => false
  | a :: as, b :: bs => a == b && listStarts as bs

/-- `String.prototype.includes`. -/
def strIncludes (s pat : String) : Bool :=
  go pat.data s.data
where
  go (p : List Char) : List Char → Bool
    | [] => p.isEmpty
    | c :: rest => listStarts p (c :: rest) || go p rest

/-- Message for a non-2xx remote response. -/
def httpStatusMsg (status : Nat) : String :=
  "Error al acceder a la URL: El servidor respondió con estado " ++ toString status ++ "."

/-- Message for a connection failure. -/
def networkErrMsg : String :=
  "Error de red: No se pudo conectar a la URL proporcionada."

/-- The catch block of `scrapeMefData`: reclassify an error carrying a
`response` as an HTTP-status error, an error carrying a `request` (whose
message does not contain `No se encontró`) as a network error, and
rethrow anything else unchanged. -/
def classifyCatch (e : JsError) : JsError :=
  match e.response with
  | some status => { message := httpStatusMsg status }
  | none =>
    if e.request && !(strIncludes e.message "No se encontró") then
      { message := networkErrMsg }
    else e

/-- Outcome of the `axios.get` + decode + `cheerio.load` step: either the
decoded document (given as its `table.Data` elements) or a transport
error. -/
inductive FetchOutcome where
  | success (tables : List (List (List String)))
  | failure (e : JsError)

/-- `scrapeMefData` after the fetch: parse the document inside the `try`,
and route every failure — transport or internally thrown — through the
catch block. -/
def scrapeMefData (f : FetchOutcome) : Except JsError Dataset :=
  match f with
  | .failure e => .error (classifyCatch e)
  | .success tables =>
    match scrapeDoc tables with
    | .ok d => .ok d
    | .error msg => .error (classifyCatch { message := msg })

/-! ### Year resolution (`src/server.ts` lines 73–79) -/

/-- Match of the regex `y=(\d{4})` anchored at the start of `cs`: the four
captured digit characters and the remainder after them. -/
def matchYearAt (cs : List Char) : Option (List Char × List Char) :=
  match cs with
  | 'y' :: '=' :: d1 :: d2 :: d3 :: d4 :: rest =>
    if d1.isDigit && d2.isDigit && d3.isDigit && d4.isDigit then
      some ([d1, d2, d3, d4], rest)
    else none
  | _ => none

/-- First match of `y=(\d{4})` in `cs`, scanning start positions left to
right: the text before the match, the four digits, and the text after. -/
def findYear : List Char → Option (List Char × List Char × List Char)
  | [] => none
  | c :: cs =>
    match matchYearAt (c :: cs) with
    | some (ds, rest) => some ([], ds, rest)
    | none =>
      match findYear cs with
      | some (pre, ds, rest) => some (c :: pre, ds, rest)
      | none => none

/-- The resolved years and the prior-year URL. -/
structure YearInfo where
  yearActual : Int
  yearAnterior : Int
  urlAnterior : String
deriving DecidableEq

/-- Year resolution: `yearActual` is `parseInt` of the four captured
digits, `yearAnterior` is one less, and `urlAnterior` replaces the first
`y=\d{4}` occurrence — the same first match — by `y=` followed by the
decimal rendering of `yearAnterior`. -/
def resolveYear (url : String) : Option YearInfo :=
  match findYear url.data with
  | none => none
  | some (pre, ds, rest) =>
    let yearActual : Int := (digitsToNat ds : Int)
    some { yearActual := yearActual
           yearAnterior := yearActual - 1
           urlAnterior := ⟨pre ++ ('y' :: '=' :: (toString (yearActual - 1)).data) ++ rest⟩ }

/-- `cs` contains the token `y=` followed by four digits. -/
def hasYearToken (cs : List Char) : Prop :=
  ∃ pre d1 d2 d3 d4 rest,
    cs = pre ++ 'y' :: '=' :: d1 :: d2 :: d3 :: d4 :: rest ∧
    d1.isDigit ∧ d2.isDigit ∧ d3.isDigit ∧ d4.isDigit

/-! ### The Differ (`src/server.ts` lines 86–113) -/

/-- One output row of the comparison. -/
structure ComparisonRow where
  concepto : String
  montoAnterior : Int
  montoActual : Int
  variacionS : Int
  variacionPorcentaje : ℚ
deriving DecidableEq

/-- `Math.trunc`: truncation toward zero (`-⌊-q⌋` is `⌈q⌉`). -/
def jsTrunc (q : ℚ) : Int :=
  if 0 ≤ q then ⌊q⌋ else -⌊-q⌋

/-- `Number(x.toFixed(1))`: round to one decimal, half toward the larger
value, as an exact rational. -/
def toFixed1 (q : ℚ) : ℚ :=
  (⌊q * 10 + 1 / 2⌋ : ℚ) / 10

/-- The row built for one `concepto`: `data[concepto] || 0` defaults a
missing amount to `0` (and maps a stored `0` to `0`, the same value);
both amounts are scaled to millions with `Math.trunc`; the percentage is
computed only when the scaled `montoAnterior` is non-zero. -/
def mkRow (dataActual dataAnterior : Dataset) (concepto : String) : ComparisonRow :=
  let montoAnteriorRaw := (dataAnterior.lookup concepto).getD 0
  let montoActualRaw := (dataActual.lookup concepto).getD 0
  let montoAnterior := jsTrunc (montoAnteriorRaw / 1000000)
  let montoActual := jsTrunc (montoActualRaw / 1000000)
  let variacionS := montoActual - montoAnterior
  let variacionPorcentaje : ℚ :=
    if montoAnterior ≠ 0 then
      toFixed1 ((montoActual : ℚ) / (montoAnterior : ℚ) * 100 - 100)
    else 0
  { concepto := concepto
    montoAnterior := montoAnterior
    montoActual := montoActual
    variacionS := variacionS
    variacionPorcentaje := variacionPorcentaje }

/-- Adding one element to a JavaScript `Set`: kept once, in first
insertion order. -/
def jsSetInsert (l : List String) (x : String) : List String :=
  if x ∈ l then l else l ++ [x]

/-- `new Set([...xs])` as its iteration order: first occurrences, in
order. -/
def jsSetOfList (xs : List String) : List String :=
  xs.foldl jsSetInsert []

/-- Order produced by the sort comparator `(a, b) => b.variacionS -
a.variacionS`: `a` may precede `b` exactly when `b.variacionS ≤
a.variacionS`. -/
def rowLe (a b : ComparisonRow) : Prop :=
  b.variacionS ≤ a.variacionS

instance : DecidableRel rowLe :=
  fun a b => Int.decLe b.variacionS a.variacionS

instance : IsTotal ComparisonRow rowLe :=
  ⟨fun a b => Int.le_total b.variacionS a.variacionS⟩

instance : IsTrans ComparisonRow rowLe :=
  ⟨fun _ _ _ hab hbc => le_trans hbc hab⟩

/-- The Differ: iterate the union `Set` of both key sets (keys of
`dataActual` in insertion order, then the keys only in `dataAnterior` in
insertion order), build a row per `concepto`, and sort by `variacionS`
descending.  `Array.prototype.sort` is a stable sort, and a stable sort
by one key is uniquely determined, so insertion sort realizes it
exactly. -/
def differ (dataActual dataAnterior : Dataset) : List ComparisonRow :=
  let conceptos := jsSetOfList (dataActual.map Prod.fst ++ dataAnterior.map Prod.fst)
  let result := conceptos.map (mkRow dataActual dataAnterior)
  List.insertionSort rowLe result

/-! ### The request handler (`app.post("/api/comparar")`) -/

/-- The three response shapes of `POST /api/comparar`. -/
inductive HandlerResult where
  | badRequest (error : String)
  | serverError (error : String)
  | success (yearActual yearAnterior : Int) (data : List ComparisonRow)
deriving DecidableEq

/-- 400 message for a missing `url`. -/
def urlRequiredMsg : String := "La URL es requerida."

/-- 400 message for a URL without a year token. -/
def missingYearMsg : String :=
  "La URL no contiene el parámetro de año 'y='. Asegúrese de copiar el enlace correcto."

/-- `.catch(e => { throw new Error(`Error en datos de <year>: <msg>`) })`:
wrap a pipeline failure with its year. -/
def wrapYearError (year : Int) (e : JsError) : JsError :=
  { message := "Error en datos de " ++ toString year ++ ": " ++ e.message }

/-- `Promise.all` over two settled outcomes: both fulfilled gives the
pair; otherwise the join rejects with a rejection, and when both reject
the flag `firstRejected` records which rejection happened first in time
(the other outcome is discarded). -/
def promiseAll (r1 r2 : Except JsError Dataset) (firstRejected : Bool) :
    Except JsError (Dataset × Dataset) :=
  match r1, r2 with
  | .ok d1, .ok d2 => .ok (d1, d2)
  | .error e, .ok _ => .error e
  | .ok _, .error e => .error e
  | .error e1, .error e2 => .error (if firstRejected then e1 else e2)

/-- The 500 payload: `error.message || "Error interno del servidor"`. -/
def fallbackMsg (m : String) : String :=
  if m = "" then "Error interno del servidor" else m

/-- The `POST /api/comparar` handler.  `url` is the request body's field
(`none` when absent; the empty string is falsy like a missing field);
`world` maps each URL to its fetch outcome; `firstRejected` is the
scheduling of the join when both pipelines reject. -/
def handler (url : Option String) (world : String → FetchOutcome)
    (firstRejected : Bool) : HandlerResult :=
  match url with
  | none => .badRequest urlRequiredMsg
  | some u =>
    if u = "" then .badRequest urlRequiredMsg
    else
      match resolveYear u with
      | none => .badRequest missingYearMsg
      | some yi =>
        let r1 := (scrapeMefData (world u)).mapError (wrapYearError yi.yearActual)
        let r2 := (scrapeMefData (world yi.urlAnterior)).mapError (wrapYearError yi.yearAnterior)
        match promiseAll r1 r2 firstRejected with
        | .error e => .serverError (fallbackMsg e.message)
        | .ok (dataActual, dataAnterior) =>
          .success yi.yearActual yi.yearAnterior (differ dataActual dataAnterior)

/-! ### Spec-side definitions used to state the claims -/

/-- The pre-sort row order as the spec words it: all labels of the
current dataset in insertion order, then the labels unique to the prior
dataset in insertion order. -/
def preSortRows (dataActual dataAnterior : Dataset) : List ComparisonRow :=
  ((dataActual.map Prod.fst) ++
      (dataAnterior.map Prod.fst).filter (fun k => !decide (k ∈ dataActual.map Prod.fst))).map
    (mkRow dataActual dataAnterior)

/-- The last parsed amount among the rows of `rows` whose normalized
label is `k`. -/
def lastParsedAmount (rows : List (List String)) (k : String) : Option ℚ :=
  ((rows.filterMap parsedOfRow).reverse).lookup k

/-! ### Helper lemmas -/

theorem mem_differ {dA dP : Dataset} {row : ComparisonRow} :
    row ∈ differ dA dP ↔
      ∃ c ∈ jsSetOfList (dA.map Prod.fst ++ dP.map Prod.fst), mkRow dA dP c = row := by
  unfold differ
  rw [List.Perm.mem_iff (List.perm_insertionSort _ _), List.mem_map]

theorem mkRow_concepto (dA dP : Dataset) (c : String) :
    (mkRow dA dP c).concepto = c := rfl

theorem mkRow_montoActual (dA dP : Dataset) (c : String) :
    (mkRow dA dP c).montoActual = jsTrunc (((dA.lookup c).getD 0) / 1000000) := rfl

theorem mkRow_montoAnterior (dA dP : Dataset) (c : String) :
    (mkRow dA dP c).montoAnterior = jsTrunc (((dP.lookup c).getD 0) / 1000000) := rfl

theorem mkRow_variacionS (dA dP : Dataset) (c : String) :
    (mkRow dA dP c).variacionS = (mkRow dA dP c).montoActual - (mkRow dA dP c).montoAnterior := rfl

theorem mkRow_variacionPorcentaje (dA dP : Dataset) (c : String) :
    (mkRow dA dP c).variacionPorcentaje =
      if (mkRow dA dP c).montoAnterior ≠ 0 then
        toFixed1 (((mkRow dA dP c).montoActual : ℚ) / ((mkRow dA dP c).montoAnterior : ℚ) * 100 - 100)
      else 0 := rfl

theorem classifyCatch_plain (m : String) :
    classifyCatch ⟨m, none, false⟩ = ⟨m, none, false⟩ := by
  simp [classifyCatch]

/-! ### Claims -/

/-- Claim C1: every comparison row produced by the Differ satisfies
`variacionS = montoActual - montoAnterior` on the scaled integer amounts,
and `variacionPorcentaje` is `((montoActual/montoAnterior)*100 - 100)`
rounded to one decimal (`Number((...).toFixed(1))`, modelled by
`toFixed1`) when the scaled `montoAnterior` is non-zero, and is exactly
`0` whenever the scaled `montoAnterior` is `0`, regardless of
`montoActual`. -/
theorem C1_variacion_fields (dA dP : Dataset) (row : ComparisonRow)
    (hmem : row ∈ differ dA dP) :
    row.variacionS = row.montoActual - row.montoAnterior ∧
    (row.montoAnterior ≠ 0 →
      row.variacionPorcentaje =
        toFixed1 ((row.montoActual : ℚ) / (row.montoAnterior : ℚ) * 100 - 100)) ∧
    (row.montoAnterior = 0 → row.variacionPorcentaje = 0) := by
  obtain ⟨c, -, rfl⟩ := mem_differ.mp hmem
  refine ⟨mkRow_variacionS dA dP c, ?_, ?_⟩ <;> intro h <;>
    rw [mkRow_variacionPorcentaje]
  · rw [if_pos h]
  · rw [if_neg (by simpa using h)]

/-- Witness for C1 on a concrete run: current dataset `{A: 3000000}`,
prior dataset `{A: 1000000}`. -/
theorem C1_variacion_fields_witness :
    (⟨"A", 1, 3, 2, 200⟩ : ComparisonRow).variacionPorcentaje =
      toFixed1 ((((⟨"A", 1, 3, 2, 200⟩ : ComparisonRow).montoActual : ℚ)) /
          (((⟨"A", 1, 3, 2, 200⟩ : ComparisonRow).montoAnterior : ℚ)) * 100 - 100) :=
  (C1_variacion_fields [("A", 3000000)] [("A", 1000000)] ⟨"A", 1, 3, 2, 200⟩
      (by with_unfolding_all exact List.Mem.head _)).2.1 (by decide)

/-- Claim C2: the Differ scales every raw amount (present, or defaulted
to `0` when the label is missing) to millions by dividing by `1000000`
and truncating toward zero; in particular `2999999` scales to `2`,
`-2999999` to `-2`, and `-500000` to `0` (not `-1`). -/
theorem C2_scaling :
    (∀ (dA dP : Dataset) (row : ComparisonRow), row ∈ differ dA dP →
      row.montoActual = jsTrunc (((dA.lookup row.concepto).getD 0) / 1000000) ∧
      row.montoAnterior = jsTrunc (((dP.lookup row.concepto).getD 0) / 1000000)) ∧
    jsTrunc ((2999999 : ℚ) / 1000000) = 2 ∧
    jsTrunc ((-2999999 : ℚ) / 1000000) = -2 ∧
    jsTrunc ((-500000 : ℚ) / 1000000) = 0 := by
  refine ⟨?_, by with_unfolding_all rfl, by with_unfolding_all rfl, by with_unfolding_all rfl⟩
  intro dA dP row hmem
  obtain ⟨c, -, rfl⟩ := mem_differ.mp hmem
  exact ⟨mkRow_montoActual dA dP c, mkRow_montoAnterior dA dP c⟩

/-- Witness for C2 on a concrete run: the scaled current amount of the
only row of `differ {A: 3000000} {A: 1000000}`. -/
theorem C2_scaling_witness :
    (⟨"A", 1, 3, 2, 200⟩ : ComparisonRow).montoActual =
      jsTrunc ((([(("A" : String), (3000000 : ℚ))].lookup
        (⟨"A", 1, 3, 2, 200⟩ : ComparisonRow).concepto).getD 0) / 1000000) :=
  (C2_scaling.1 [("A", 3000000)] [("A", 1000000)] ⟨"A", 1, 3, 2, 200⟩
      (by with_unfolding_all exact List.Mem.head _)).1

/-- Claim C9: a `ParseError` thrown by `scrapeMefData` itself reaches the
caller with its message unchanged — the internally constructed error
carries neither a `response` nor a `request` field, so the catch block's
reclassification leaves it untouched. -/
theorem C9_parse_error_unchanged (tables : List (List (List String))) (msg : String)
    (h : scrapeDoc tables = .error msg) :
    scrapeMefData (.success tables) = .error ⟨msg, none, false⟩ ∧
    classifyCatch ⟨msg, none, false⟩ = ⟨msg, none, false⟩ := by
  refine ⟨?_, classifyCatch_plain msg⟩
  rw [scrapeMefData, h]
  exact congrArg Except.error (classifyCatch_plain msg)

/-- Witness for C9: the no-table `ParseError` of the empty document. -/
theorem C9_parse_error_unchanged_witness :
    scrapeMefData (.success []) = .error ⟨noTableMsg, none, false⟩ ∧
    classifyCatch ⟨noTableMsg, none, false⟩ = ⟨noTableMsg, none, false⟩ :=
  C9_parse_error_unchanged [] noTableMsg rfl

theorem wrap_message_ne (y : Int) (m : String) :
    "Error en datos de " ++ toString y ++ ": " ++ m ≠ "" := by
  intro hEq
  have h1 := congrArg String.length hEq
  rw [String.length_append, String.length_append, String.length_append] at h1
  have h2 : ("Error en datos de " : String).length = 18 := by decide
  have h3 : ("" : String).length = 0 := by decide
  omega

theorem fallbackMsg_wrap (y : Int) (e : JsError) :
    fallbackMsg (wrapYearError y e).message = (wrapYearError y e).message := by
  rw [wrapYearError, fallbackMsg, if_neg (wrap_message_ne y e.message)]

/-- Claim C5: if either per-year pipeline fails, the whole request fails
with a 500 response whose error message is the failing pipeline's message
wrapped with that pipeline's year as `Error en datos de <year>: <message>`;
when both fail, the first rejection (the scheduling flag) determines the
reported error and the other outcome is discarded; on joint success the
Differ result is returned. -/
theorem C5_fail_fast_join (u : String) (w : String → FetchOutcome) (b : Bool)
    (yi : YearInfo) (hu : u ≠ "") (hy : resolveYear u = some yi) :
    (∀ (e : JsError) (d : Dataset),
      scrapeMefData (w u) = .error e → scrapeMefData (w yi.urlAnterior) = .ok d →
      handler (some u) w b =
        .serverError ("Error en datos de " ++ toString yi.yearActual ++ ": " ++ e.message)) ∧
    (∀ (d : Dataset) (e : JsError),
      scrapeMefData (w u) = .ok d → scrapeMefData (w yi.urlAnterior) = .error e →
      handler (some u) w b =
        .serverError ("Error en datos de " ++ toString yi.yearAnterior ++ ": " ++ e.message)) ∧
    (∀ (e1 e2 : JsError),
      scrapeMefData (w u) = .error e1 → scrapeMefData (w yi.urlAnterior) = .error e2 →
      handler (some u) w b =
        .serverError (if b
          then "Error en datos de " ++ toString yi.yearActual ++ ": " ++ e1.message
          else "Error en datos de " ++ toString yi.yearAnterior ++ ": " ++ e2.message)) ∧
    (∀ d1 d2 : Dataset,
      scrapeMefData (w u) = .ok d1 → scrapeMefData (w yi.urlAnterior) = .ok d2 →
      handler (some u) w b = .success yi.yearActual yi.yearAnterior (differ d1 d2)) := by
  refine ⟨?_, ?_, ?_, ?_⟩ <;> intro x1 x2 h1 h2 <;>
    simp only [handler, if_neg hu, hy, h1, h2, Except.mapError, promiseAll, fallbackMsg_wrap,
      wrapYearError]
  · rw [fallbackMsg, if_neg (wrap_message_ne yi.yearActual x1.message)]
  · rw [fallbackMsg, if_neg (wrap_message_ne yi.yearAnterior x2.message)]
  · cases b <;>
      simp only [Bool.false_eq_true, ite_false, ite_true] <;>
      first
      | rw [fallbackMsg, if_neg (wrap_message_ne yi.yearActual x1.message)]
      | rw [fallbackMsg, if_neg (wrap_message_ne yi.yearAnterior x2.message)]

/-- Witness for C5: both pipelines reject and the scheduling flag selects
the current-year rejection. -/
theorem C5_fail_fast_join_witness :
    handler (some "u?y=2024") (fun _ => FetchOutcome.failure ⟨"boom", none, false⟩) true =
      .serverError (if true
        then "Error en datos de " ++ toString (2024 : Int) ++ ": " ++ "boom"
        else "Error en datos de " ++ toString (2023 : Int) ++ ": " ++ "boom") :=
  (C5_fail_fast_join "u?y=2024" (fun _ => FetchOutcome.failure ⟨"boom", none, false⟩) true
      ⟨2024, 2023, "u?y=2023"⟩ (by decide) (by with_unfolding_all rfl)).2.2.1
    ⟨"boom", none, false⟩ ⟨"boom", none, false⟩
    (by with_unfolding_all rfl) (by with_unfolding_all rfl)

theorem lookup_insertJS (d : Dataset) (k0 : String) (v : ℚ) (k : String) :
    (insertJS d k0 v).lookup k = if k = k0 then some v else d.lookup k := by
  induction d with
  | nil =>
    by_cases h : k = k0
    · have hb : (k == k0) = true := beq_iff_eq.mpr h
      simp [insertJS, List.lookup, hb, h]
    · have hb : (k == k0) = false := beq_eq_false_iff_ne.mpr h
      simp [insertJS, List.lookup, hb, h]
  | cons p t ih =>
    obtain ⟨k1, v1⟩ := p
    rw [insertJS]
    by_cases h1 : k1 = k0
    · subst h1
      rw [if_pos rfl]
      by_cases h2 : k = k1
      · subst h2
        simp [List.lookup]
      · have hb : (k == k1) = false := beq_eq_false_iff_ne.mpr h2
        simp [List.lookup, hb, h2]
    · rw [if_neg h1]
      by_cases h2 : k = k1
      · subst h2
        have hk : ¬k = k0 := fun hh => h1 hh
        simp [List.lookup, hk]
      · have hb : (k == k1) = false := beq_eq_false_iff_ne.mpr h2
        simp [List.lookup, hb, ih]

theorem keys_insertJS (d : Dataset) (k0 : String) (v : ℚ) :
    (insertJS d k0 v).map Prod.fst =
      if k0 ∈ d.map Prod.fst then d.map Prod.fst else d.map Prod.fst ++ [k0] := by
  induction d with
  | nil => simp [insertJS]
  | cons p t ih =>
    obtain ⟨k1, v1⟩ := p
    by_cases h1 : k1 = k0 <;> by_cases h2 : k0 ∈ t.map Prod.fst <;>
      simp_all [insertJS, eq_comm]

theorem nodup_keys_insertJS {d : Dataset} (k0 : String) (v : ℚ)
    (h : (d.map Prod.fst).Nodup) : ((insertJS d k0 v).map Prod.fst).Nodup := by
  rw [keys_insertJS]
  split
  · exact h
  · rename_i hmem
    rw [List.nodup_append]
    refine ⟨h, List.nodup_singleton _, fun a ha hb => ?_⟩
    rw [List.mem_singleton] at hb
    exact hmem (hb ▸ ha)

theorem tableFold_go_snd (rows : List (List String)) (d : Dataset) (b : Bool) :
    (rows.foldl rowStep (d, b)).2 = (b || rows.any (fun r => (parsedOfRow r).isSome)) := by
  induction rows generalizing d b with
  | nil => simp
  | cons r t ih =>
    cases h : parsedOfRow r <;>
      simp [rowStep, h, ih, List.foldl_cons, Bool.or_assoc]

theorem tableFold_go_fst (rows : List (List String)) (d : Dataset) (b : Bool) :
    (rows.foldl rowStep (d, b)).1 =
      (rows.filterMap parsedOfRow).foldl (fun acc kv => insertJS acc kv.1 kv.2) d := by
  induction rows generalizing d b with
  | nil => simp
  | cons r t ih =>
    cases h : parsedOfRow r <;>
      simp [rowStep, h, ih, List.filterMap_cons]

theorem lookup_foldl_insert (ps : List (String × ℚ)) (d : Dataset) (k : String) :
    (ps.foldl (fun acc kv => insertJS acc kv.1 kv.2) d).lookup k =
      (ps.reverse.lookup k).or (d.lookup k) := by
  induction ps generalizing d with
  | nil => simp
  | cons p t ih =>
    rw [List.foldl_cons, ih, List.reverse_cons, List.lookup_append, Option.or_assoc,
      lookup_insertJS]
    by_cases h : k = p.1
    · have hb : (k == p.1) = true := beq_iff_eq.mpr h
      simp [List.lookup, hb, h]
    · have hb : (k == p.1) = false := beq_eq_false_iff_ne.mpr h
      simp [List.lookup, hb, h]

theorem nodup_keys_foldl_insert (ps : List (String × ℚ)) (d : Dataset)
    (h : (d.map Prod.fst).Nodup) :
    (((ps.foldl (fun acc kv => insertJS acc kv.1 kv.2) d)).map Prod.fst).Nodup := by
  induction ps generalizing d with
  | nil => exact h
  | cons p t ih => exact ih _ (nodup_keys_insertJS p.1 p.2 h)

theorem tableFold_lookup (rows : List (List String)) (k : String) :
    (tableFold rows).1.lookup k = lastParsedAmount rows k := by
  rw [tableFold, tableFold_go_fst, lookup_foldl_insert, lastParsedAmount]
  simp

theorem processTable_error_iff (rows : List (List String)) :
    processTable rows = .error noDataMsg ↔ ∀ row ∈ rows, parsedOfRow row = none := by
  have hsnd : (tableFold rows).2 = rows.any (fun r => (parsedOfRow r).isSome) := by
    rw [tableFold, tableFold_go_snd]
    simp
  simp only [processTable, hsnd]
  cases h : rows.any (fun r => (parsedOfRow r).isSome) with
  | false =>
    rw [List.any_eq_false] at h
    simp only [Option.not_isSome_iff_eq_none] at h
    simp only [Bool.false_eq_true, if_false, true_iff]
    exact h
  | true =>
    refine ⟨fun hEq => absurd hEq (by simp), fun hAll => ?_⟩
    exfalso
    rw [List.any_eq_true] at h
    obtain ⟨r, hr, hsome⟩ := h
    rw [hAll r hr] at hsome
    simp at hsome

/-- Claim C6: a row of the data table is a candidate iff it has at least
8 cell columns; a candidate row yields the normalized trimmed text of
cell 1 as label and the parsed trimmed comma-stripped text of cell 7 as
amount; a candidate row whose amount fails to parse is silently skipped
(removing it does not change the result); and the parser fails with the
no-numeric-data `ParseError` exactly when no row of the table yields a
parsed amount — in particular for a table with no row of at least 8
columns. -/
theorem C6_parser_contract :
    (∀ row : List String, row.length < 8 → parsedOfRow row = none) ∧
    (∀ row : List String, 8 ≤ row.length →
      parseFloatQ (stripCommas (jsTrim (cellText row 7))) = none → parsedOfRow row = none) ∧
    (∀ (row : List String) (q : ℚ), 8 ≤ row.length →
      parseFloatQ (stripCommas (jsTrim (cellText row 7))) = some q →
      parsedOfRow row = some (removeAccents (jsTrim (cellText row 1)), q)) ∧
    (∀ (rows₁ rows₂ : List (List String)) (row : List String), parsedOfRow row = none →
      processTable (rows₁ ++ row :: rows₂) = processTable (rows₁ ++ rows₂)) ∧
    (∀ rows : List (List String),
      processTable rows = .error noDataMsg ↔ ∀ row ∈ rows, parsedOfRow row = none) ∧
    (∀ rows : List (List String), (∀ row ∈ rows, row.length < 8) →
      scrapeMefData (.success [rows]) = .error ⟨noDataMsg, none, false⟩) := by
  have h1 : ∀ row : List String, row.length < 8 → parsedOfRow row = none := by
    intro row h
    rw [parsedOfRow, if_neg (by omega)]
  have h2 : ∀ row : List String, 8 ≤ row.length →
      parseFloatQ (stripCommas (jsTrim (cellText row 7))) = none → parsedOfRow row = none := by
    intro row h hp
    rw [parsedOfRow, if_pos h]
    simp only [hp]
  have h3 : ∀ (row : List String) (q : ℚ), 8 ≤ row.length →
      parseFloatQ (stripCommas (jsTrim (cellText row 7))) = some q →
      parsedOfRow row = some (removeAccents (jsTrim (cellText row 1)), q) := by
    intro row q h hp
    rw [parsedOfRow, if_pos h]
    simp only [hp]
  have h4 : ∀ (rows₁ rows₂ : List (List String)) (row : List String), parsedOfRow row = none →
      processTable (rows₁ ++ row :: rows₂) = processTable (rows₁ ++ rows₂) := by
    intro rows₁ rows₂ row h
    have : rowStep (tableFold rows₁) row = tableFold rows₁ := by
      rw [rowStep, h]
    rw [processTable, processTable, tableFold, tableFold, List.foldl_append, List.foldl_append,
      List.foldl_cons]
    rw [tableFold] at this
    rw [this]
  have h5 := processTable_error_iff
  refine ⟨h1, h2, h3, h4, h5, ?_⟩
  intro rows hshort
  have herr : processTable rows = .error noDataMsg :=
    (h5 rows).mpr (fun row hr => h1 row (hshort row hr))
  rw [scrapeMefData, scrapeDoc, herr]
  exact congrArg Except.error (classifyCatch_plain noDataMsg)

/-- Witness for C6: a one-row table whose only row has 2 columns produces
the no-numeric-data `ParseError` end to end. -/
theorem C6_parser_contract_witness :
    scrapeMefData (.success [[["a", "b"]]]) = .error ⟨noDataMsg, none, false⟩ :=
  C6_parser_contract.2.2.2.2.2 [["a", "b"]] (by decide)

/-- Claim C8: label normalization (`removeAccents`) is applied to each
extracted label before insertion into the dataset map, so any two rows
whose normalized labels are equal occupy a single key (the key list of
the parsed dataset has no duplicates and the stored value at each key is
the last parsed amount among its rows); in particular two
differently-accented spellings of one concept collapse to one key holding
the later amount. -/
theorem C8_normalization_collapse :
    (∀ (row : List String) (kv : String × ℚ), parsedOfRow row = some kv →
      kv.1 = removeAccents (jsTrim (cellText row 1))) ∧
    (∀ (rows : List (List String)) (k : String),
      (tableFold rows).1.lookup k = lastParsedAmount rows k) ∧
    (∀ rows : List (List String), ((tableFold rows).1.map Prod.fst).Nodup) ∧
    removeAccents "Educación" = removeAccents "Educacion" ∧
    processTable [["x", "Educación", "", "", "", "", "", "1"],
        ["x", "Educacion", "", "", "", "", "", "2"]] =
      .ok [("Educacion", 2)] := by
  refine ⟨?_, tableFold_lookup, ?_, by with_unfolding_all rfl, by with_unfolding_all rfl⟩
  · intro row kv h
    by_cases hl : 8 ≤ row.length
    · simp only [parsedOfRow, hl, if_true] at h
      cases hp : parseFloatQ (stripCommas (jsTrim (cellText row 7))) with
      | none => rw [hp] at h; simp at h
      | some q =>
        rw [hp] at h
        simp only [Option.some.injEq] at h
        rw [← h]
    · simp only [parsedOfRow, hl, if_false] at h
      exact Option.noConfusion h
  · intro rows
    rw [tableFold, tableFold_go_fst]
    exact nodup_keys_foldl_insert _ _ (by simp)

/-- Witness for C8: the parsed entry of an accented row carries the
normalized label. -/
theorem C8_normalization_collapse_witness :
    (("Educacion", (1 : ℚ)) : String × ℚ).1 =
      removeAccents (jsTrim (cellText ["x", "Educación", "", "", "", "", "", "1"] 1)) :=
  C8_normalization_collapse.1 ["x", "Educación", "", "", "", "", "", "1"] ("Educacion", 1)
    (by with_unfolding_all rfl)

theorem mem_jsSetInsert (l : List String) (x y : String) :
    y ∈ jsSetInsert l x ↔ y ∈ l ∨ y = x := by
  rw [jsSetInsert]
  split
  · rename_i hmem
    exact ⟨Or.inl, fun h => h.elim id (fun hy => hy ▸ hmem)⟩
  · simp

theorem mem_jsSetFold (xs acc : List String) (y : String) :
    y ∈ xs.foldl jsSetInsert acc ↔ y ∈ acc ∨ y ∈ xs := by
  induction xs generalizing acc with
  | nil => simp
  | cons x t ih =>
    rw [List.foldl_cons, ih, mem_jsSetInsert]
    simp [List.mem_cons]
    tauto

theorem nodup_jsSetInsert (l : List String) (x : String) (h : l.Nodup) :
    (jsSetInsert l x).Nodup := by
  rw [jsSetInsert]
  split
  · exact h
  · rename_i hmem
    rw [List.nodup_append]
    exact ⟨h, List.nodup_singleton _, fun a ha hb => hmem ((List.mem_singleton.mp hb) ▸ ha)⟩

theorem nodup_jsSetFold (xs acc : List String) (h : acc.Nodup) :
    (xs.foldl jsSetInsert acc).Nodup := by
  induction xs generalizing acc with
  | nil => exact h
  | cons x t ih => exact ih _ (nodup_jsSetInsert acc x h)

theorem mem_jsSetOfList (xs : List String) (y : String) :
    y ∈ jsSetOfList xs ↔ y ∈ xs := by
  rw [jsSetOfList, mem_jsSetFold]
  simp

theorem nodup_jsSetOfList (xs : List String) : (jsSetOfList xs).Nodup :=
  nodup_jsSetFold xs [] List.nodup_nil

theorem length_jsSetOfList (xs : List String) :
    (jsSetOfList xs).length = xs.toFinset.card := by
  rw [← List.toFinset_card_of_nodup (nodup_jsSetOfList xs)]
  congr 1
  ext y
  simp [List.mem_toFinset, mem_jsSetOfList]

theorem lookup_eq_none_of_not_mem (d : Dataset) (k : String)
    (h : k ∉ d.map Prod.fst) : d.lookup k = none := by
  induction d with
  | nil => rfl
  | cons p t ih =>
    obtain ⟨k1, v1⟩ := p
    simp only [List.map_cons, List.mem_cons] at h
    push_neg at h
    have hb : (k == k1) = false := beq_eq_false_iff_ne.mpr h.1
    simp only [List.lookup, hb]
    exact ih h.2

/-- Claim C4: for any two non-empty label→amount mappings, the number of
rows of `result.data` equals the cardinality of the union of the two key
sets; a label missing from one dataset still yields a row, its missing
amount defaulted to `0` (which scales to `0`). -/
theorem C4_union_count (dA dP : Dataset) (hA : dA ≠ []) (hP : dP ≠ []) :
    (differ dA dP).length =
      ((dA.map Prod.fst).toFinset ∪ (dP.map Prod.fst).toFinset).card ∧
    (∀ k : String, k ∈ dA.map Prod.fst ∨ k ∈ dP.map Prod.fst →
      mkRow dA dP k ∈ differ dA dP) ∧
    (∀ k : String, k ∉ dP.map Prod.fst →
      (dP.lookup k).getD 0 = 0 ∧ (mkRow dA dP k).montoAnterior = 0) := by
  refine ⟨?_, ?_, ?_⟩
  · have h1 : (differ dA dP).length =
        (jsSetOfList (dA.map Prod.fst ++ dP.map Prod.fst)).length := by
      simp only [differ, List.length_insertionSort, List.length_map]
    rw [h1, length_jsSetOfList, List.toFinset_append]
  · intro k hk
    rw [mem_differ]
    refine ⟨k, ?_, rfl⟩
    rw [mem_jsSetOfList, List.mem_append]
    exact hk
  · intro k hk
    have hlook : dP.lookup k = none := lookup_eq_none_of_not_mem dP k hk
    refine ⟨by rw [hlook]; rfl, ?_⟩
    rw [mkRow_montoAnterior, hlook]
    norm_num [jsTrunc]

/-- Witness for C4: `differ {A: 1} {B: 2}` has as many rows as the union
of the key sets. -/
theorem C4_union_count_witness :
    (differ [("A", 1)] [("B", 2)]).length =
      (([(("A" : String), (1 : ℚ))].map Prod.fst).toFinset ∪
        ([(("B" : String), (2 : ℚ))].map Prod.fst).toFinset).card :=
  (C4_union_count [("A", 1)] [("B", 2)] (List.cons_ne_nil _ _) (List.cons_ne_nil _ _)).1

theorem foldl_jsSetInsert_append (a : List String) (acc : List String)
    (h : (acc ++ a).Nodup) : a.foldl jsSetInsert acc = acc ++ a := by
  induction a generalizing acc with
  | nil => simp
  | cons x t ih =>
    have hx : x ∉ acc := by
      rw [List.nodup_append] at h
      exact fun hmem => h.2.2 hmem (List.mem_cons_self x t)
    rw [List.foldl_cons, jsSetInsert, if_neg hx]
    have h2 : ((acc ++ [x]) ++ t).Nodup := by
      rw [List.append_assoc]
      exact h
    rw [ih (acc ++ [x]) h2, List.append_assoc]
    rfl

theorem foldl_jsSetInsert_filter (b : List String) (acc : List String) (hb : b.Nodup) :
    b.foldl jsSetInsert acc = acc ++ b.filter (fun x => !decide (x ∈ acc)) := by
  induction b generalizing acc with
  | nil => simp
  | cons x t ih =>
    rw [List.nodup_cons] at hb
    obtain ⟨hx, ht⟩ := hb
    rw [List.foldl_cons, jsSetInsert]
    by_cases hmem : x ∈ acc
    · rw [if_pos hmem, ih acc ht, List.filter_cons]
      have hpx : (!decide (x ∈ acc)) = false := by simp [hmem]
      rw [hpx]
      simp
    · rw [if_neg hmem, ih (acc ++ [x]) ht, List.filter_cons]
      have hpx : (!decide (x ∈ acc)) = true := by simp [hmem]
      rw [hpx]
      simp only [if_true]
      have hfeq : t.filter (fun y => !decide (y ∈ acc ++ [x])) =
          t.filter (fun y => !decide (y ∈ acc)) := by
        apply List.filter_congr
        intro y hy
        have hyx : y ≠ x := fun hEq => hx (hEq ▸ hy)
        simp [List.mem_append, hyx]
      rw [hfeq, List.append_assoc]
      rfl

theorem jsSetOfList_append (a b : List String) (ha : a.Nodup) (hb : b.Nodup) :
    jsSetOfList (a ++ b) = a ++ b.filter (fun x => !decide (x ∈ a)) := by
  rw [jsSetOfList, List.foldl_append]
  have h1 : a.foldl jsSetInsert [] = a := by
    simpa using foldl_jsSetInsert_append a [] (by simpa using ha)
  rw [h1, foldl_jsSetInsert_filter b a hb]

theorem filter_insertionSort_eq (l : List ComparisonRow) (v : Int) :
    (List.insertionSort rowLe l).filter (fun r => decide (r.variacionS = v)) =
      l.filter (fun r => decide (r.variacionS = v)) := by
  have hpair : (l.filter (fun r => decide (r.variacionS = v))).Pairwise rowLe := by
    apply List.pairwise_of_forall_mem_list
    intro a ha b hb
    have hav : a.variacionS = v := by simpa using List.of_mem_filter ha
    have hbv : b.variacionS = v := by simpa using List.of_mem_filter hb
    rw [rowLe, hbv, hav]
  have hsub : (l.filter (fun r => decide (r.variacionS = v))).Sublist
      (List.insertionSort rowLe l) :=
    List.sublist_insertionSort hpair (List.filter_sublist l)
  have hff : (l.filter (fun r => decide (r.variacionS = v))).filter
      (fun r => decide (r.variacionS = v)) = l.filter (fun r => decide (r.variacionS = v)) :=
    List.filter_eq_self.mpr (fun a ha => (List.mem_filter.mp ha).2)
  have hsub2 : (l.filter (fun r => decide (r.variacionS = v))).Sublist
      ((List.insertionSort rowLe l).filter (fun r => decide (r.variacionS = v))) := by
    rw [← hff]
    exact List.Sublist.filter _ hsub
  have hperm : ((List.insertionSort rowLe l).filter (fun r => decide (r.variacionS = v))).Perm
      (l.filter (fun r => decide (r.variacionS = v))) :=
    (List.perm_insertionSort rowLe l).filter _
  exact (hsub2.eq_of_length hperm.length_eq.symm).symm

/-- Claim C3: the Differ output is sorted by `variacionS` descending (no
row exceeds the preceding row), and rows with equal `variacionS` keep
their pre-sort relative order, the pre-sort order being all labels of the
current dataset in insertion order followed by the labels unique to the
prior dataset in insertion order (`preSortRows`). -/
theorem C3_sorted_and_stable (dA dP : Dataset)
    (hA : (dA.map Prod.fst).Nodup) (hP : (dP.map Prod.fst).Nodup) :
    List.Sorted rowLe (differ dA dP) ∧
    (∀ v : Int,
      (differ dA dP).filter (fun r => decide (r.variacionS = v)) =
        (preSortRows dA dP).filter (fun r => decide (r.variacionS = v))) := by
  have hdiff : differ dA dP = List.insertionSort rowLe (preSortRows dA dP) := by
    simp only [differ]
    rw [jsSetOfList_append _ _ hA hP, preSortRows]
  constructor
  · rw [hdiff]
    exact List.sorted_insertionSort rowLe _
  · intro v
    rw [hdiff, filter_insertionSort_eq]

/-- Witness for C3: the two-row output of `differ {A: 1} {B: 2}` is
sorted by `variacionS` descending. -/
theorem C3_sorted_and_stable_witness :
    List.Sorted rowLe (differ [("A", 1)] [("B", 2)]) :=
  (C3_sorted_and_stable [("A", 1)] [("B", 2)] (by decide) (by decide)).1

theorem digit_ne {c d : Char} (h : c.isDigit = true) (hd : d.isDigit = false) : c ≠ d := by
  intro hEq
  rw [hEq, hd] at h
  cases h

theorem isJsWs_of_digit {c : Char} (h : c.isDigit = true) : isJsWs c = false := by
  have h1 : (c == ' ') = false := beq_eq_false_iff_ne.mpr (digit_ne h (by decide))
  have h2 : (c == '\t') = false := beq_eq_false_iff_ne.mpr (digit_ne h (by decide))
  have h3 : (c == '\n') = false := beq_eq_false_iff_ne.mpr (digit_ne h (by decide))
  have h4 : (c == '\r') = false := beq_eq_false_iff_ne.mpr (digit_ne h (by decide))
  have h5 : (c == '\x0b') = false := beq_eq_false_iff_ne.mpr (digit_ne h (by decide))
  have h6 : (c == '\x0c') = false := beq_eq_false_iff_ne.mpr (digit_ne h (by decide))
  have h7 : (c == ' ') = false := beq_eq_false_iff_ne.mpr (digit_ne h (by decide))
  rw [isJsWs, h1, h2, h3, h4, h5, h6, h7]
  rfl

theorem parseFloatQ_no_sign_no_ws (c : Char) (cs : List Char)
    (hws : isJsWs c = false) (hm : c ≠ '-') (hp : c ≠ '+') :
    parseFloatQ ⟨c :: cs⟩ = parseFloatCore (c :: cs) := by
  simp only [parseFloatQ, List.dropWhile_cons, hws, if_false]
  split
  · rename_i heq
    injection heq with h1 h2
    exact absurd h1 hm
  · rename_i heq
    injection heq with h1 h2
    exact absurd h1 hp
  · rfl

theorem takeWhile_append_all {p : Char → Bool} {l1 : List Char} (l2 : List Char)
    (h : ∀ c ∈ l1, p c = true) : (l1 ++ l2).takeWhile p = l1 ++ l2.takeWhile p := by
  induction l1 with
  | nil => simp
  | cons c t ih =>
    rw [List.cons_append]
    simp only [List.takeWhile_cons, h c (List.mem_cons_self c t), if_true]
    rw [ih (fun x hx => h x (List.mem_cons_of_mem c hx))]
    rfl

theorem dropWhile_append_all {p : Char → Bool} {l1 : List Char} (l2 : List Char)
    (h : ∀ c ∈ l1, p c = true) : (l1 ++ l2).dropWhile p = l2.dropWhile p := by
  induction l1 with
  | nil => simp
  | cons c t ih =>
    rw [List.cons_append]
    simp only [List.dropWhile_cons, h c (List.mem_cons_self c t), if_true]
    exact ih (fun x hx => h x (List.mem_cons_of_mem c hx))

theorem takeWhile_head_false {p : Char → Bool} {l : List Char}
    (h : ∀ c, l.head? = some c → p c = false) : l.takeWhile p = [] := by
  cases l with
  | nil => rfl
  | cons c t =>
    simp [List.takeWhile_cons, h c rfl]

theorem dropWhile_head_false {p : Char → Bool} {l : List Char}
    (h : ∀ c, l.head? = some c → p c = false) : l.dropWhile p = l := by
  cases l with
  | nil => rfl
  | cons c t =>
    simp [List.dropWhile_cons, h c rfl]

theorem parseExpPart_head_not_exp {l : List Char}
    (h : ∀ c, l.head? = some c → c ≠ 'e' ∧ c ≠ 'E') : parseExpPart l = 0 := by
  cases l with
  | nil => rfl
  | cons c t =>
    obtain ⟨he, hE⟩ := h c rfl
    have h1 : (c == 'e') = false := beq_eq_false_iff_ne.mpr he
    have h2 : (c == 'E') = false := beq_eq_false_iff_ne.mpr hE
    rw [parseExpPart, h1, h2]
    rfl

theorem pow10_zero : pow10 0 = 1 := by
  have h : pow10 0 = (10 : ℚ) ^ (0 : Nat) := rfl
  rw [h, pow_zero]

theorem parseFloatCore_digits (ds tail : List Char) (hne : ds ≠ [])
    (hd : ∀ c ∈ ds, c.isDigit = true)
    (ht : ∀ c, tail.head? = some c → c.isDigit = false ∧ c ≠ '.' ∧ c ≠ 'e' ∧ c ≠ 'E') :
    parseFloatCore (ds ++ tail) = some (digitsToNat ds : ℚ) := by
  have htake : (ds ++ tail).takeWhile Char.isDigit = ds := by
    rw [takeWhile_append_all tail hd, takeWhile_head_false (fun c hc => (ht c hc).1),
      List.append_nil]
  have hdrop : (ds ++ tail).dropWhile Char.isDigit = tail := by
    rw [dropWhile_append_all tail hd]
    exact dropWhile_head_false (fun c hc => (ht c hc).1)
  have hexp : parseExpPart tail = 0 :=
    parseExpPart_head_not_exp (fun c hc => ⟨(ht c hc).2.2.1, (ht c hc).2.2.2⟩)
  simp only [parseFloatCore, htake, hdrop]
  rw [if_neg (by simpa using hne)]
  split
  · rename_i rest2
    exact absurd rfl (ht '.' rfl).2.1
  · rw [hexp, pow10_zero, mul_one]

theorem parseFloatCore_none_iff (cs : List Char) :
    parseFloatCore cs = none ↔ numStart cs = false := by
  cases cs with
  | nil => simp [parseFloatCore, numStart]
  | cons c t =>
    rw [numStart]
    cases hc : c.isDigit with
    | true =>
      have htk : (c :: t).takeWhile Char.isDigit = c :: t.takeWhile Char.isDigit := by
        simp only [List.takeWhile_cons, hc, if_true]
      simp only [parseFloatCore, htk, hc, Bool.true_or]
      rw [if_neg (by simp)]
      constructor
      · intro h
        split at h <;> simp at h
      · intro h
        cases h
    | false =>
      have htk : (c :: t).takeWhile Char.isDigit = [] := by
        simp [List.takeWhile_cons, hc]
      have hdr : (c :: t).dropWhile Char.isDigit = c :: t := by
        simp [List.dropWhile_cons, hc]
      simp only [parseFloatCore, htk, hdr, hc, Bool.false_or]
      rw [if_pos (by simp)]
      by_cases hdot : c = '.'
      · subst hdot
        simp only [beq_self_eq_true, Bool.true_and]
        cases t with
        | nil => simp [headDigit]
        | cons c2 t2 =>
          rw [headDigit]
          cases hc2 : c2.isDigit with
          | true =>
            have htk2 : (c2 :: t2).takeWhile Char.isDigit = c2 :: t2.takeWhile Char.isDigit := by
              simp only [List.takeWhile_cons, hc2, if_true]
            simp [htk2]
          | false =>
            have htk2 : (c2 :: t2).takeWhile Char.isDigit = [] := by
              simp [List.takeWhile_cons, hc2]
            simp [htk2]
      · have hb : (c == '.') = false := beq_eq_false_iff_ne.mpr hdot
        rw [hb]
        simp only [Bool.false_and]
        split
        · rename_i heq
          injection heq with h1 h2
          exact absurd h1 hdot
        · simp



theorem skipSign_other {c : Char} (t : List Char) (hm : c ≠ '-') (hp : c ≠ '+') :
    skipSign (c :: t) = c :: t := by
  rw [skipSign.eq_def]
  split
  · rename_i heq
    injection heq with h1 h2
    exact absurd h1 hm
  · rename_i heq
    injection heq with h1 h2
    exact absurd h1 hp
  · rfl

theorem parseFloatQ_none_iff (s : String) :
    parseFloatQ s = none ↔ hasNumStart s = false := by
  rw [hasNumStart]
  cases hcs : s.data.dropWhile isJsWs with
  | nil =>
    simp only [parseFloatQ, hcs]
    simp [parseFloatCore, skipSign, numStart]
  | cons c t =>
    simp only [parseFloatQ, hcs]
    split
    · rename_i heq
      injection heq with h1 h2
      subst h1
      subst h2
      rw [skipSign]
      simp only [Option.map_eq_none']
      exact parseFloatCore_none_iff t
    · rename_i heq
      injection heq with h1 h2
      subst h1
      subst h2
      rw [skipSign]
      exact parseFloatCore_none_iff t
    · rename_i hn1 hn2
      have hm : c ≠ '-' := fun hEq => hn1 t (by rw [hEq])
      have hp : c ≠ '+' := fun hEq => hn2 t (by rw [hEq])
      rw [skipSign_other t hm hp]
      exact parseFloatCore_none_iff (c :: t)

/-- Claim C10: when the trimmed, comma-stripped text of a candidate row's
8th cell begins with a valid decimal-number prefix followed by further
non-numeric characters, the numeric prefix is taken as the amount
(`parseFloat` prefix semantics) and the row is not skipped; `parseFloat`
fails only when the text has no leading numeric prefix at all. -/
theorem C10_parseFloat_prefix :
    (∀ s : String, parseFloatQ s = none → hasNumStart s = false) ∧
    (∀ ds tail : List Char, ds ≠ [] → (∀ c ∈ ds, c.isDigit = true) →
      (∀ c, tail.head? = some c → c.isDigit = false ∧ c ≠ '.' ∧ c ≠ 'e' ∧ c ≠ 'E') →
      parseFloatQ ⟨ds ++ tail⟩ = some (digitsToNat ds : ℚ)) ∧
    (∀ (row : List String) (q : ℚ), 8 ≤ row.length →
      parseFloatQ (stripCommas (jsTrim (cellText row 7))) = some q →
      parsedOfRow row = some (removeAccents (jsTrim (cellText row 1)), q)) := by
  refine ⟨fun s h => (parseFloatQ_none_iff s).mp h, ?_, ?_⟩
  · intro ds tail hne hd ht
    obtain ⟨d0, ds', rfl⟩ : ∃ d0 ds', ds = d0 :: ds' := by
      cases ds with
      | nil => exact absurd rfl hne
      | cons a b => exact ⟨a, b, rfl⟩
    have hd0 := hd d0 (List.mem_cons_self _ _)
    rw [List.cons_append, parseFloatQ_no_sign_no_ws d0 (ds' ++ tail) (isJsWs_of_digit hd0)
      (digit_ne hd0 (by decide)) (digit_ne hd0 (by decide)), ← List.cons_append]
    exact parseFloatCore_digits (d0 :: ds') tail (by simp) hd ht
  · intro row q h hp
    rw [parsedOfRow, if_pos h]
    simp only [hp]

/-- Witness for C10: `parseFloat("123abc")` is `123`. -/
theorem C10_parseFloat_prefix_witness :
    parseFloatQ ⟨['1', '2', '3'] ++ ['a', 'b', 'c']⟩ =
      some (digitsToNat ['1', '2', '3'] : ℚ) :=
  C10_parseFloat_prefix.2.1 ['1', '2', '3'] ['a', 'b', 'c'] (by decide) (by decide)
    (by
      intro c hc
      simp only [List.head?] at hc
      injection hc with h1
      subst h1
      exact ⟨by decide, by decide, by decide, by decide⟩)



theorem matchYearAt_some {cs ds rest : List Char} (h : matchYearAt cs = some (ds, rest)) :
    cs = 'y' :: '=' :: (ds ++ rest) ∧ ds.length = 4 ∧ ∀ c ∈ ds, c.isDigit = true := by
  rw [matchYearAt.eq_def] at h
  split at h
  · rename_i d1 d2 d3 d4 rest'
    split at h
    · rename_i hdig
      simp only [Option.some.injEq, Prod.mk.injEq] at h
      obtain ⟨h1, h2⟩ := h
      subst h1
      subst h2
      simp only [Bool.and_eq_true] at hdig
      refine ⟨rfl, rfl, ?_⟩
      intro c hc
      simp only [List.mem_cons, List.not_mem_nil, or_false] at hc
      rcases hc with rfl | rfl | rfl | rfl
      · exact hdig.1.1.1
      · exact hdig.1.1.2
      · exact hdig.1.2
      · exact hdig.2
    · exact Option.noConfusion h
  · exact Option.noConfusion h

theorem findYear_some {cs pre ds rest : List Char}
    (h : findYear cs = some (pre, ds, rest)) :
    cs = pre ++ 'y' :: '=' :: (ds ++ rest) ∧ ds.length = 4 ∧ (∀ c ∈ ds, c.isDigit = true) ∧
    ∀ i < pre.length, matchYearAt (cs.drop i) = none := by
  induction cs generalizing pre with
  | nil => rw [findYear] at h; exact Option.noConfusion h
  | cons c t ih =>
    rw [findYear] at h
    cases hm : matchYearAt (c :: t) with
    | some p =>
      obtain ⟨ds', rest'⟩ := p
      rw [hm] at h
      simp only [Option.some.injEq, Prod.mk.injEq] at h
      obtain ⟨h1, h2, h3⟩ := h
      subst h1
      subst h2
      subst h3
      obtain ⟨hshape, hlen, hdig⟩ := matchYearAt_some hm
      refine ⟨hshape, hlen, hdig, ?_⟩
      intro i hi
      simp at hi
    | none =>
      rw [hm] at h
      cases hf : findYear t with
      | none => rw [hf] at h; exact Option.noConfusion h
      | some q =>
        obtain ⟨pre', ds', rest'⟩ := q
        rw [hf] at h
        simp only [Option.some.injEq, Prod.mk.injEq] at h
        obtain ⟨h1, h2, h3⟩ := h
        subst h1
        subst h2
        subst h3
        obtain ⟨hshape, hlen, hdig, hmin⟩ := ih hf
        refine ⟨by rw [List.cons_append, hshape], hlen, hdig, ?_⟩
        intro i hi
        cases i with
        | zero => simpa using hm
        | succ j =>
          rw [List.drop_succ_cons]
          exact hmin j (by simpa using hi)

theorem findYear_ne_none_of_token {cs : List Char} (h : hasYearToken cs) :
    findYear cs ≠ none := by
  obtain ⟨pre, d1, d2, d3, d4, rest, hshape, h1, h2, h3, h4⟩ := h
  subst hshape
  induction pre with
  | nil =>
    rw [List.nil_append, findYear]
    have hm : matchYearAt ('y' :: '=' :: d1 :: d2 :: d3 :: d4 :: rest) =
        some ([d1, d2, d3, d4], rest) := by
      rw [matchYearAt]
      rw [h1, h2, h3, h4]
      rfl
    rw [hm]
    simp
  | cons p pre' ih =>
    rw [List.cons_append, findYear]
    cases hm : matchYearAt (p :: (pre' ++ 'y' :: '=' :: d1 :: d2 :: d3 :: d4 :: rest)) with
    | some q =>
      obtain ⟨a, b⟩ := q
      simp
    | none =>
      cases hf : findYear (pre' ++ 'y' :: '=' :: d1 :: d2 :: d3 :: d4 :: rest) with
      | none => exact absurd hf ih
      | some q =>
        obtain ⟨a, b, c⟩ := q
        simp



/-- Claim C7: for every URL containing the token `y=` followed by four
digits, the handler extracts the first such match's digits as
`yearActual`, sets `yearAnterior = yearActual - 1`, and builds
`urlAnterior` by replacing that first `y=<digits>` occurrence with
`y=<yearAnterior>`; for every URL with no such token (and for a missing
or empty `url` field) it responds 400 with a validation message without
consulting the fetch world. -/
theorem C7_year_resolution :
    (∀ (u : String) (pre ds rest : List Char),
      findYear u.data = some (pre, ds, rest) →
      u.data = pre ++ 'y' :: '=' :: (ds ++ rest) ∧
      ds.length = 4 ∧ (∀ c ∈ ds, c.isDigit = true) ∧
      (∀ i < pre.length, matchYearAt (u.data.drop i) = none) ∧
      resolveYear u = some
        { yearActual := (digitsToNat ds : Int)
          yearAnterior := (digitsToNat ds : Int) - 1
          urlAnterior :=
            ⟨pre ++ ('y' :: '=' :: (toString ((digitsToNat ds : Int) - 1)).data) ++ rest⟩ }) ∧
    (∀ u : String, resolveYear u = none ↔ ¬hasYearToken u.data) ∧
    (∀ (u : String) (w w' : String → FetchOutcome) (b b' : Bool),
      u ≠ "" → resolveYear u = none →
      handler (some u) w b = .badRequest missingYearMsg ∧
      handler (some u) w b = handler (some u) w' b') ∧
    handler none (fun _ => FetchOutcome.success []) true = .badRequest urlRequiredMsg := by
  have hkey : ∀ (u : String) (pre ds rest : List Char),
      findYear u.data = some (pre, ds, rest) →
      u.data = pre ++ 'y' :: '=' :: (ds ++ rest) ∧
      ds.length = 4 ∧ (∀ c ∈ ds, c.isDigit = true) ∧
      (∀ i < pre.length, matchYearAt (u.data.drop i) = none) ∧
      resolveYear u = some
        { yearActual := (digitsToNat ds : Int)
          yearAnterior := (digitsToNat ds : Int) - 1
          urlAnterior :=
            ⟨pre ++ ('y' :: '=' :: (toString ((digitsToNat ds : Int) - 1)).data) ++ rest⟩ } := by
    intro u pre ds rest h
    obtain ⟨hshape, hlen, hdig, hmin⟩ := findYear_some h
    refine ⟨hshape, hlen, hdig, hmin, ?_⟩
    rw [resolveYear, h]
  refine ⟨hkey, ?_, ?_, rfl⟩
  · intro u
    constructor
    · intro hres htok
      cases hf : findYear u.data with
      | none => exact findYear_ne_none_of_token htok hf
      | some q =>
        obtain ⟨pre, ds, rest⟩ := q
        rw [resolveYear, hf] at hres
        exact Option.noConfusion hres
    · intro hnt
      cases hf : findYear u.data with
      | none => rw [resolveYear, hf]
      | some q =>
        obtain ⟨pre, ds, rest⟩ := q
        obtain ⟨hshape, hlen, hdig, -⟩ := findYear_some hf
        exfalso
        apply hnt
        rcases ds with _ | ⟨d1, _ | ⟨d2, _ | ⟨d3, _ | ⟨d4, _ | ⟨d5, t5⟩⟩⟩⟩⟩ <;> simp at hlen
        exact ⟨pre, d1, d2, d3, d4, rest, hshape,
          hdig d1 (by simp), hdig d2 (by simp), hdig d3 (by simp), hdig d4 (by simp)⟩
  · intro u w w' b b' hu hres
    constructor
    · simp [handler, hu, hres]
    · simp [handler, hu, hres]



/-- Witness for C7: the year of `a?y=2024` resolves to 2024 with prior
URL `a?y=2023`. -/
theorem C7_year_resolution_witness :
    resolveYear "a?y=2024" = some
      { yearActual := ((digitsToNat ['2', '0', '2', '4'] : Nat) : Int)
        yearAnterior := ((digitsToNat ['2', '0', '2', '4'] : Nat) : Int) - 1
        urlAnterior := ⟨['a', '?'] ++ ('y' :: '=' ::
          (toString (((digitsToNat ['2', '0', '2', '4'] : Nat) : Int) - 1)).data) ++ []⟩ } :=
  (C7_year_resolution.1 "a?y=2024" ['a', '?'] ['2', '0', '2', '4'] []
    (by with_unfolding_all rfl)).2.2.2.2

end MEF
